import Mathlib

/-!
Verification development for the TFro3/qrCodeGenerator repository.

The repository is a client-side QR code generator.  The parts embedded here
are, faithfully to the JavaScript source:

* `QRGenerator.calculateTypeNumber` and `QRGenerator.generate`
  (src/js/qr-generator.js): the incremental capacity probe over the external
  encoder and the top-level generation entry point.  The external encoding
  library `qrcode(typeNumber, level)` is out of scope and is modelled by an
  abstract acceptance predicate `fits : Nat → Bool` (whether `addData`/`make`
  succeed for the fixed text and level at a given type number) together with
  an abstract matrix producer `enc : Nat → QR`.
* `QRGenerator.renderToCanvas`, `renderSquares`, `renderDots`,
  `renderRounded`, `drawRoundedRect`: canvas drawing is embedded as a list of
  drawing commands with rational coordinates, given a pixel semantics by a
  left fold (later commands overwrite earlier ones, exactly like painting).
* `ImageProcessor.addLogoOverlay`, `drawLogoBackground`, `drawLogo`,
  `parseGIF`, `createAnimatedGIF` (src/js/image-processor.js).
* `QRCodeApp.generateAnimatedQR` / `generateStaticQR` (the application
  coordinator): the animated pipeline with its fallback-to-static catch.
-/

namespace QRGen

/-- Pattern style of a rendered module (`squares`, `dots`, `rounded`). -/
inductive Style where
  | squares
  | dots
  | rounded
deriving DecidableEq, Repr

/-- The queryable module matrix returned by the external encoder:
`getModuleCount()` and `isDark(row, col)`. -/
structure QR where
  moduleCount : Nat
  isDark : Nat → Nat → Bool

/-- A single canvas drawing command.  `fillRect` is `ctx.fillRect`,
`fillCircle` is `beginPath/arc/fill`, `fillRoundedRect` is the
`drawRoundedRect` path of qr-generator.js, `drawImage` is
`ctx.drawImage(image, x, y, w, h)` for an external image identified by an
opaque id. -/
inductive Cmd where
  | fillRect (x y w h : ℚ) (color : String)
  | fillCircle (cx cy r : ℚ) (color : String)
  | fillRoundedRect (x y w h rad : ℚ) (color : String)
  | drawImage (img : Nat) (x y w h : ℚ)
deriving DecidableEq, Repr

/-- A canvas: width, height and the ordered list of drawing commands
applied to it since it was created (a fresh canvas is fully transparent). -/
structure Surface where
  width : ℚ
  height : ℚ
  cmds : List Cmd
deriving DecidableEq, Repr

instance : Inhabited Surface := ⟨⟨0, 0, []⟩⟩

/-- The options object accepted by `QRGenerator.generate` /
`renderToCanvas`. -/
structure RenderOpts where
  size : ℚ
  style : Style
  foregroundColor : String
  backgroundColor : String
  transparentBackground : Bool
  margin : Nat

/-- Whether the point `(px, py)` lies in the filled region of a command.
Rectangles (and drawn images) cover the half-open box
`[x, x+w) × [y, y+h)`, circles the closed disk, and the rounded rectangle
the rect minus the four corner squares outside their quarter disks. -/
def Cmd.covers : Cmd → ℚ → ℚ → Bool
  | .fillRect x y w h _, px, py =>
      decide (x ≤ px ∧ px < x + w ∧ y ≤ py ∧ py < y + h)
  | .fillCircle cx cy r _, px, py =>
      decide ((px - cx) ^ 2 + (py - cy) ^ 2 ≤ r ^ 2)
  | .fillRoundedRect x y w h rad _, px, py =>
      decide ((x ≤ px ∧ px < x + w ∧ y ≤ py ∧ py < y + h) ∧
        (px < x + rad → py < y + rad →
          (px - (x + rad)) ^ 2 + (py - (y + rad)) ^ 2 ≤ rad ^ 2) ∧
        (x + w - rad < px → py < y + rad →
          (px - (x + w - rad)) ^ 2 + (py - (y + rad)) ^ 2 ≤ rad ^ 2) ∧
        (px < x + rad → y + h - rad < py →
          (px - (x + rad)) ^ 2 + (py - (y + h - rad)) ^ 2 ≤ rad ^ 2) ∧
        (x + w - rad < px → y + h - rad < py →
          (px - (x + w - rad)) ^ 2 + (py - (y + h - rad)) ^ 2 ≤ rad ^ 2))
  | .drawImage _ x y w h, px, py =>
      decide (x ≤ px ∧ px < x + w ∧ y ≤ py ∧ py < y + h)

/-- The value a covering command writes to a pixel: a solid fill color, or
a pixel taken from an external image. -/
inductive Pixel where
  | solid (color : String)
  | fromImage (img : Nat)
deriving DecidableEq, Repr

/-- The pixel value written by a command where it covers. -/
def Cmd.pixel : Cmd → Pixel
  | .fillRect _ _ _ _ c => .solid c
  | .fillCircle _ _ _ c => .solid c
  | .fillRoundedRect _ _ _ _ _ c => .solid c
  | .drawImage i _ _ _ _ => .fromImage i

/-- Painting one command over the current pixel state at `(px, py)`:
a covering command overwrites, a non-covering one leaves the state. -/
def paintAt (px py : ℚ) (acc : Option Pixel) (c : Cmd) : Option Pixel :=
  if c.covers px py then some c.pixel else acc

/-- The final pixel at `(px, py)` after replaying the surface's commands in
order over an initially transparent canvas.  `none` means zero alpha. -/
def Surface.pixelAt (s : Surface) (px py : ℚ) : Option Pixel :=
  s.cmds.foldl (paintAt px py) none

/-- The dark cells of the matrix in row-major order, exactly the iteration
order of the nested `for (row) for (col) if (qr.isDark(row, col))` loops of
the three render functions. -/
def darkCells (qr : QR) : List (Nat × Nat) :=
  (List.range qr.moduleCount).flatMap fun r =>
    ((List.range qr.moduleCount).filter fun c => qr.isDark r c).map fun c => (r, c)

/-- `QRGenerator.renderSquares`: one `fillRect` of side `cellSize` at
`((col + margin) * cellSize, (row + margin) * cellSize)` per dark module. -/
def renderSquares (qr : QR) (cellSize : ℚ) (margin : Nat) (fg : String) : List Cmd :=
  (darkCells qr).map fun rc =>
    .fillRect (((rc.2 : ℚ) + (margin : ℚ)) * cellSize)
      (((rc.1 : ℚ) + (margin : ℚ)) * cellSize) cellSize cellSize fg

/-- `QRGenerator.renderDots`: one filled circle of radius
`cellSize * 0.45` centered at the cell center per dark module. -/
def renderDots (qr : QR) (cellSize : ℚ) (margin : Nat) (fg : String) : List Cmd :=
  (darkCells qr).map fun rc =>
    .fillCircle (((rc.2 : ℚ) + (margin : ℚ) + 1/2) * cellSize)
      (((rc.1 : ℚ) + (margin : ℚ) + 1/2) * cellSize) (cellSize * (45/100)) fg

/-- `QRGenerator.renderRounded`: one rounded rectangle with corner radius
`cellSize * 0.3` per dark module. -/
def renderRounded (qr : QR) (cellSize : ℚ) (margin : Nat) (fg : String) : List Cmd :=
  (darkCells qr).map fun rc =>
    .fillRoundedRect (((rc.2 : ℚ) + (margin : ℚ)) * cellSize)
      (((rc.1 : ℚ) + (margin : ℚ)) * cellSize) cellSize cellSize (cellSize * (3/10)) fg

/-- `cellSize = size / totalModules` with
`totalModules = moduleCount + margin * 2` (renderToCanvas lines 92-93). -/
def cellSizeOf (qr : QR) (o : RenderOpts) : ℚ :=
  o.size / ((qr.moduleCount : ℚ) + (o.margin : ℚ) * 2)

/-- The module-drawing commands of `renderToCanvas`: the `switch (style)`
dispatch to the three render functions. -/
def moduleCmds (qr : QR) (o : RenderOpts) : List Cmd :=
  match o.style with
  | .dots => renderDots qr (cellSizeOf qr o) o.margin o.foregroundColor
  | .rounded => renderRounded qr (cellSizeOf qr o) o.margin o.foregroundColor
  | .squares => renderSquares qr (cellSizeOf qr o) o.margin o.foregroundColor

/-- `QRGenerator.renderToCanvas`: a size×size canvas, cleared (fresh
command list, all pixels transparent), then a whole-surface
`backgroundColor` fill exactly when `transparentBackground` is false,
then the style-dependent module commands. -/
def renderToCanvas (qr : QR) (o : RenderOpts) : Surface :=
  { width := o.size
    height := o.size
    cmds :=
      (if o.transparentBackground then []
       else [.fillRect 0 0 o.size o.size o.backgroundColor]) ++ moduleCmds qr o }

/-- The probe loop body of `QRGenerator.calculateTypeNumber`: from the
current candidate `t`, return the first type number `≤ 40` accepted by the
external encoder, and the fallback `10` when the loop runs past 40. -/
def typeLoop (fits : Nat → Bool) (t : Nat) : Nat :=
  if h : t ≤ 40 then
    if fits t then t else typeLoop fits (t + 1)
  else 10
termination_by 41 - t
decreasing_by omega

/-- `QRGenerator.calculateTypeNumber`: the probe loop started at type 1. -/
def calculateTypeNumber (fits : Nat → Bool) : Nat :=
  typeLoop fits 1

/-- The error outcomes of `QRGenerator.generate`: the `Text is required`
throw for missing/empty text, and the external encoder's capacity-overflow
throw escaping from `qr.make()`. -/
inductive QRError where
  | inputError
  | capacityError
deriving DecidableEq, Repr

/-- `QRGenerator.generate`: fail on falsy text before anything else, pick
the type number with `calculateTypeNumber`, run the external encoder at
exactly that type number (its capacity-overflow throw propagates), and
render the resulting matrix.  Returns the type number actually passed to
the encoder together with the rendered canvas. -/
def generate (fits : Nat → Bool) (enc : Nat → QR) (text : Option String)
    (o : RenderOpts) : Except QRError (Nat × Surface) :=
  match text with
  | none => .error .inputError
  | some s =>
    if s = "" then .error .inputError
    else
      let typeNumber := calculateTypeNumber fits
      if fits typeNumber then
        .ok (typeNumber, renderToCanvas (enc typeNumber) o)
      else
        .error .capacityError

/-- The intrinsic dimensions of a loaded image (`image.width`,
`image.height`). -/
structure ImageDims where
  width : ℚ
  height : ℚ
deriving DecidableEq, Repr

/-- The options object of `ImageProcessor.addLogoOverlay`. -/
structure OverlayOpts where
  logoSizePercent : ℚ
  padding : ℚ
  backgroundColor : String
  patternStyle : Style

/-- `ImageProcessor.drawLogoBackground`: the style-matched opaque patch
drawn beneath the logo — a circle for `dots`, a rounded rectangle with
corner radius `0.2 * (size + padding * 2)` for `rounded`, and a plain
rectangle otherwise. -/
def drawLogoBackground (x y size padding : ℚ) (backgroundColor : String)
    (patternStyle : Style) : Cmd :=
  match patternStyle with
  | .dots =>
      .fillCircle (x + size / 2) (y + size / 2) ((size + padding * 2) / 2)
        backgroundColor
  | .rounded =>
      .fillRoundedRect (x - padding) (y - padding) (size + padding * 2)
        (size + padding * 2) ((size + padding * 2) * (2/10)) backgroundColor
  | .squares =>
      .fillRect (x - padding) (y - padding) (size + padding * 2)
        (size + padding * 2) backgroundColor

/-- `ImageProcessor.drawLogo`: scale the image so that the longer dimension
equals `maxSize` (landscape shrinks the height by `aspectRatio`, portrait
the width), center the result inside the `maxSize × maxSize` box at
`(x, y)`, and draw it. -/
def drawLogo (imgId : Nat) (image : ImageDims) (x y maxSize : ℚ) : Cmd :=
  let aspectRatio := image.width / image.height
  let wh : ℚ × ℚ :=
    if aspectRatio > 1 then (maxSize, maxSize / aspectRatio)
    else if aspectRatio < 1 then (maxSize * aspectRatio, maxSize)
    else (maxSize, maxSize)
  let offsetX := (maxSize - wh.1) / 2
  let offsetY := (maxSize - wh.2) / 2
  .drawImage imgId (x + offsetX) (y + offsetY) wh.1 wh.2

/-- A freshly created canvas (`document.createElement('canvas')` with the
given dimensions): fully transparent, no commands yet. -/
def newCanvas (w h : ℚ) : Surface :=
  ⟨w, h, []⟩

/-- `ctx.drawImage(srcCanvas, 0, 0)` where the source canvas has the same
dimensions as the target: replay the source's commands onto the target. -/
def ctxDrawSurface (target src : Surface) : Surface :=
  { target with cmds := target.cmds ++ src.cmds }

/-- Appending one drawing command to a canvas (a single `ctx` fill or
image-draw call targeting that canvas). -/
def ctxDraw (target : Surface) (c : Cmd) : Surface :=
  { target with cmds := target.cmds ++ [c] }

/-- `ImageProcessor.addLogoOverlay` (the per-frame variant that allocates a
fresh output canvas): create `outputCanvas` with the base's dimensions, draw
the base QR canvas into it, then the logo background patch, then the logo.
Every drawing call of the source targets `outputCtx`; the base canvas is
only read from, so the pair returned is (the base as the operation leaves
it, the new output canvas). -/
def addLogoOverlay (qrCanvas : Surface) (logoId : Nat) (logoDims : ImageDims)
    (opts : OverlayOpts) : Surface × Surface :=
  let outputCanvas := newCanvas qrCanvas.width qrCanvas.height
  let outputCanvas := ctxDrawSurface outputCanvas qrCanvas
  let logoSize := qrCanvas.width * opts.logoSizePercent
  let logoX := (qrCanvas.width - logoSize) / 2
  let logoY := (qrCanvas.height - logoSize) / 2
  let outputCanvas := ctxDraw outputCanvas
    (drawLogoBackground logoX logoY logoSize opts.padding opts.backgroundColor
      opts.patternStyle)
  let outputCanvas := ctxDraw outputCanvas
    (drawLogo logoId logoDims logoX logoY logoSize)
  (qrCanvas, outputCanvas)

/-- One frame as produced by the external `gifuct` decoder
(`decompressFrames`): an opaque pixel patch, its dimensions, and the raw
delay field, absent or zero in some source GIFs. -/
structure RawFrame where
  patch : Nat
  width : ℚ
  height : ℚ
  delay : Option Nat
deriving DecidableEq, Repr

/-- One processed frame as produced by `ImageProcessor.parseGIF`:
ImageData plus the decoded delay. -/
structure Frame where
  imageData : Nat
  width : ℚ
  height : ℚ
  delay : Nat
deriving DecidableEq, Repr

/-- JavaScript `v || d` on an optional numeric field: the default replaces
both an absent value and a zero (falsy) value. -/
def jsOrDefault (v : Option Nat) (d : Nat) : Nat :=
  match v with
  | none => d
  | some k => if k = 0 then d else k

/-- The per-frame conversion of `parseGIF`: ImageData from the patch, and
`delay: frame.delay || 100`. -/
def decodeFrame (f : RawFrame) : Frame :=
  ⟨f.patch, f.width, f.height, jsOrDefault f.delay 100⟩

/-- `ImageProcessor.parseGIF` after the external decoder returned `raws`:
throw when no frames were found, otherwise convert every frame in order. -/
def parseGIF (raws : List RawFrame) : Except String (List Frame) :=
  if raws.length = 0 then .error "No frames found in GIF"
  else .ok (raws.map decodeFrame)

/-- `ImageProcessor.imageDataToCanvas`: a fresh canvas of the ImageData's
dimensions holding exactly that image (`putImageData`). -/
def imageDataToCanvas (f : Frame) : Surface :=
  ⟨f.width, f.height, [.drawImage f.imageData 0 0 f.width f.height]⟩

/-- The frame list handed to the `gif.js` encoder by the
`canvases.forEach((canvas, index) => gif.addFrame(canvas, { delay:
delays[index] || 100 }))` loop of `createAnimatedGIF`: each canvas in
order, paired with its delay where that is truthy and with 100 where the
delay is zero or the delays array has no entry at that index. -/
def gifFrames : List Surface → List Nat → List (Surface × Nat)
  | [], _ => []
  | c :: cs, [] => (c, 100) :: gifFrames cs []
  | c :: cs, d :: ds => (c, if d = 0 then 100 else d) :: gifFrames cs ds

/-- `ImageProcessor.createAnimatedGIF`: reject when the `gif.js` library is
missing or no canvases were provided, otherwise encode the `gifFrames`
sequence into the output container. -/
def createAnimatedGIF (gifLibLoaded : Bool) (canvases : List Surface)
    (delays : List Nat) : Except String (List (Surface × Nat)) :=
  if gifLibLoaded = false then .error "gif.js library not loaded"
  else if canvases.length = 0 then .error "No canvases provided for GIF creation"
  else .ok (gifFrames canvases delays)

/-- What a successful generation displays: the encoded animated container,
or a single static canvas. -/
inductive Display where
  | animated (result : List (Surface × Nat))
  | static (canvas : Surface)
deriving DecidableEq, Repr

/-- The overlay options `QRCodeApp` passes to `addLogoOverlay` on both
paths: `{ logoSizePercent: 0.25, padding: 10, backgroundColor: '#FFFFFF',
patternStyle: config.style }`. -/
def appOverlayOpts (style : Style) : OverlayOpts :=
  ⟨25/100, 10, "#FFFFFF", style⟩

/-- `QRCodeApp.generateStaticQR`: generate the base QR canvas (its errors
propagate to the caller), then, when a logo is active, overlay it — a logo
load failure is caught locally and the bare QR canvas is displayed
instead. -/
def generateStaticQR (fits : Nat → Bool) (enc : Nat → QR) (text : Option String)
    (o : RenderOpts) (logo : Option (Nat × ImageDims)) (logoLoadOk : Bool) :
    Except QRError Display :=
  match generate fits enc text o with
  | .error e => .error e
  | .ok (_, qrCanvas) =>
    match logo with
    | none => .ok (.static qrCanvas)
    | some (logoId, logoDims) =>
      if logoLoadOk then
        .ok (.static (addLogoOverlay qrCanvas logoId logoDims
          (appOverlayOpts o.style)).2)
      else .ok (.static qrCanvas)

/-- The environment of one animated-path run: availability of the two
external GIF libraries, the outcome of the external `gifuct` frame
decoder on the current logo, per-frame success of the logo-image load
inside `addLogoOverlay`, and success of the asynchronous `gif.js`
encoding. -/
structure AnimEnv where
  gifuctLoaded : Bool
  gifLoaded : Bool
  decompressResult : Except String (List RawFrame)
  overlayOk : Nat → Bool
  encodeOk : Bool

/-- The per-frame loop of `QRCodeApp.generateAnimatedQR` from frame index
`i`: regenerate the base QR canvas with a fresh `generate` call, convert
the frame's ImageData to a canvas and overlay it on the base, collecting
`(finalCanvas, frames[i].delay)` pairs in source order; any per-frame
failure aborts the whole loop. -/
def frameLoop (fits : Nat → Bool) (enc : Nat → QR) (text : Option String)
    (o : RenderOpts) (overlayOk : Nat → Bool) :
    List Frame → Nat → Except String (List (Surface × Nat))
  | [], _ => .ok []
  | f :: rest, i =>
    match generate fits enc text o with
    | .error _ => .error "Failed to generate QR code"
    | .ok (_, qrCanvas) =>
      if overlayOk i then
        match frameLoop fits enc text o overlayOk rest (i + 1) with
        | .error e => .error e
        | .ok tail =>
          .ok (((addLogoOverlay qrCanvas f.imageData ⟨f.width, f.height⟩
            (appOverlayOpts o.style)).2, f.delay) :: tail)
      else .error "Failed to load image"

/-- The body of the `try` block of `QRCodeApp.generateAnimatedQR`: check
the two GIF libraries, decode and parse the GIF logo, run the per-frame
loop, and hand canvases and delays to `createAnimatedGIF`, whose
asynchronous encoding may still fail. -/
def animatedAttempt (env : AnimEnv) (fits : Nat → Bool) (enc : Nat → QR)
    (text : Option String) (o : RenderOpts) :
    Except String (List (Surface × Nat)) :=
  if !(env.gifuctLoaded && env.gifLoaded) then
    .error "GIF processing libraries not loaded"
  else
    match env.decompressResult with
    | .error e => .error e
    | .ok raws =>
      match parseGIF raws with
      | .error e => .error e
      | .ok frames =>
        match frameLoop fits enc text o env.overlayOk frames 0 with
        | .error e => .error e
        | .ok pairs =>
          match createAnimatedGIF env.gifLoaded (pairs.map Prod.fst)
              (pairs.map Prod.snd) with
          | .error e => .error e
          | .ok encoded =>
            if env.encodeOk then .ok encoded
            else .error "GIF encoding failed"

/-- `QRCodeApp.generateAnimatedQR`: the `try` block above; its `catch`
falls back to `generateStaticQR` with the same configuration and logo
state instead of rethrowing. -/
def generateAnimatedQR (env : AnimEnv) (fits : Nat → Bool) (enc : Nat → QR)
    (text : Option String) (o : RenderOpts) (logo : Option (Nat × ImageDims))
    (logoLoadOk : Bool) : Except QRError Display :=
  match animatedAttempt env fits enc text o with
  | .ok result => .ok (.animated result)
  | .error _ => generateStaticQR fits enc text o logo logoLoadOk

/-- The point `(px, py)` lies in the cell of grid position `(r, c)` after
scaling by `cs` and shifting by the `m`-module quiet zone — exactly the half-open box a
Squares-style `fillRect` covers. -/
def inCellRect (cs : ℚ) (m : Nat) (r c : Nat) (px py : ℚ) : Prop :=
  ((c : ℚ) + (m : ℚ)) * cs ≤ px ∧ px < ((c : ℚ) + (m : ℚ) + 1) * cs ∧
  ((r : ℚ) + (m : ℚ)) * cs ≤ py ∧ py < ((r : ℚ) + (m : ℚ) + 1) * cs

/-- Test fixture: a matrix with no dark module. -/
def lightQR : QR :=
  ⟨21, fun _ _ => false⟩

/-- Test fixture: a 21-module checkerboard matrix. -/
def checkerQR : QR :=
  ⟨21, fun r c => (r + c) % 2 == 0⟩

/-- Test fixture: default-like render options (512px, squares, black on
white, opaque, 4-module quiet zone). -/
def testOpts : RenderOpts :=
  ⟨512, .squares, "#000000", "#ffffff", false, 4⟩

/-- Test fixture: the same options with the dots style and a size giving
whole-number cells (`cellSize = 290 / 29 = 10`). -/
def dotsOpts : RenderOpts :=
  ⟨290, .dots, "#000000", "#ffffff", false, 4⟩

/-- Test fixture: two decoded GIF frames, the first with the falsy raw
delay 0, the second with raw delay 20. -/
def rawsW : List RawFrame :=
  [⟨0, 10, 10, some 0⟩, ⟨1, 10, 10, some 20⟩]

/-- Test fixture: an animated-path environment where both libraries are
loaded and every step succeeds. -/
def envW : AnimEnv :=
  ⟨true, true, .ok rawsW, fun _ => true, true⟩

/-- Test fixture: an encoder that accepts every type number. -/
def fitsAll : Nat → Bool :=
  fun _ => true

/-- Test fixture: an encoder producing the checkerboard matrix at every
type number. -/
def encW : Nat → QR :=
  fun _ => checkerQR

section TypeNumber

/-- When every type number from `t` through 40 is rejected, the probe loop
falls through to the fallback value 10. -/
theorem typeLoop_eq_ten (fits : Nat → Bool) :
    ∀ n t, 41 - t ≤ n → (∀ u, t ≤ u → u ≤ 40 → fits u = false) →
      typeLoop fits t = 10 := by
  intro n
  induction n with
  | zero =>
    intro t hn _
    rw [typeLoop]
    have h41 : ¬ t ≤ 40 := by omega
    simp [h41]
  | succ n ih =>
    intro t hn hf
    rw [typeLoop]
    by_cases h : t ≤ 40
    · have hft : fits t = false := hf t (Nat.le_refl t) h
      simp [h, hft]
      exact ih (t + 1) (by omega) fun u hu h40 => hf u (by omega) h40
    · simp [h]

/-- When some type number in `[t, 40]` is accepted, the probe loop returns
the least accepted type number that is `≥ t`. -/
theorem typeLoop_found (fits : Nat → Bool) :
    ∀ n t, 41 - t ≤ n → ∀ u, t ≤ u → u ≤ 40 → fits u = true →
      t ≤ typeLoop fits t ∧ typeLoop fits t ≤ 40 ∧
      fits (typeLoop fits t) = true ∧
      ∀ v, t ≤ v → v < typeLoop fits t → fits v = false := by
  intro n
  induction n with
  | zero =>
    intro t hn u hu h40 _
    omega
  | succ n ih =>
    intro t hn u hu h40 hfu
    have ht40 : t ≤ 40 := Nat.le_trans hu h40
    rw [typeLoop]
    by_cases hft : fits t = true
    · simp [ht40, hft]
      omega
    · have hft2 : fits t = false := by
        cases hfits : fits t
        · rfl
        · exact absurd hfits hft
      have hut : t ≠ u := by
        intro he
        rw [he] at hft2
        rw [hfu] at hft2
        exact Bool.noConfusion hft2
      have hu2 : t + 1 ≤ u := by omega
      obtain ⟨ih1, ih2, ih3, ih4⟩ := ih (t + 1) (by omega) u hu2 h40 hfu
      simp [ht40, hft2]
      refine ⟨by omega, ih2, ih3, ?_⟩
      intro v hv hv2
      by_cases hvt : v = t
      · rw [hvt]; exact hft2
      · exact ih4 v (by omega) hv2

/-- C1: for every non-empty text and error-correction level (abstracted as
the acceptance predicate `fits` of the external encoder),
`calculateTypeNumber` returns the smallest type number in 1..40 the
external encoder accepts — first success of an incremental probe from 1
upward — and returns the fixed fallback value 10 when no type number in
1..40 succeeds; `generate` then uses exactly this type number for the
encoding it renders. -/
theorem calculateTypeNumber_spec (fits : Nat → Bool) (enc : Nat → QR)
    (o : RenderOpts) (text : String) :
    ((∃ u, 1 ≤ u ∧ u ≤ 40 ∧ fits u = true) →
      1 ≤ calculateTypeNumber fits ∧ calculateTypeNumber fits ≤ 40 ∧
      fits (calculateTypeNumber fits) = true ∧
      ∀ v, 1 ≤ v → v < calculateTypeNumber fits → fits v = false) ∧
    ((∀ u, 1 ≤ u → u ≤ 40 → fits u = false) → calculateTypeNumber fits = 10) ∧
    (∀ tn s, generate fits enc (some text) o = .ok (tn, s) →
      tn = calculateTypeNumber fits ∧
      s = renderToCanvas (enc (calculateTypeNumber fits)) o) := by
  refine ⟨?_, ?_, ?_⟩
  · rintro ⟨u, hu1, hu40, hfu⟩
    exact typeLoop_found fits 40 1 (by omega) u hu1 hu40 hfu
  · intro hnone
    exact typeLoop_eq_ten fits 40 1 (by omega) hnone
  · intro tn s hok
    unfold generate at hok
    by_cases he : text = ""
    · simp [he] at hok
    · simp only [he, if_false] at hok
      by_cases hfit : fits (calculateTypeNumber fits) = true
      · simp [hfit] at hok
        exact ⟨hok.1.symm, hok.2.symm⟩
      · simp [hfit] at hok

/-- Concrete instance of C1: an acceptance predicate whose least accepted
type number in 1..40 is 3. -/
theorem calculateTypeNumber_spec_witness :
    (∃ u, 1 ≤ u ∧ u ≤ 40 ∧ (fun t => decide (3 ≤ t ∧ t ≤ 40)) u = true) ∧
    (1 ≤ calculateTypeNumber (fun t => decide (3 ≤ t ∧ t ≤ 40)) ∧
     calculateTypeNumber (fun t => decide (3 ≤ t ∧ t ≤ 40)) ≤ 40 ∧
     (fun t => decide (3 ≤ t ∧ t ≤ 40))
       (calculateTypeNumber (fun t => decide (3 ≤ t ∧ t ≤ 40))) = true ∧
     ∀ v, 1 ≤ v → v < calculateTypeNumber (fun t => decide (3 ≤ t ∧ t ≤ 40)) →
       (fun t => decide (3 ≤ t ∧ t ≤ 40)) v = false) :=
  ⟨⟨3, by decide⟩,
    (calculateTypeNumber_spec (fun t => decide (3 ≤ t ∧ t ≤ 40))
      (fun _ => ⟨21, fun _ _ => false⟩)
      ⟨512, .squares, "#000000", "#ffffff", false, 4⟩ "hello").1 ⟨3, by decide⟩⟩

/-- C7: empty or missing content makes `generate` fail with the input
error before any encoding attempt (for every encoder), and content too
large for the largest supported capacity (type number 40, with capacity
monotone in the type number) at the requested correction level makes
`generate` fail with the capacity error, distinct from the input error and
produced instead of any rendered surface. -/
theorem generate_fail_fast (fits : Nat → Bool) (enc : Nat → QR)
    (o : RenderOpts) (text : String) (htext : text ≠ "")
    (hmono : ∀ t u, t ≤ u → fits t = true → fits u = true)
    (h40 : fits 40 = false) :
    (∀ (fits2 : Nat → Bool) (enc2 : Nat → QR),
      generate fits2 enc2 none o = .error .inputError ∧
      generate fits2 enc2 (some "") o = .error .inputError) ∧
    generate fits enc (some text) o = .error .capacityError ∧
    QRError.inputError ≠ QRError.capacityError := by
  refine ⟨fun fits2 enc2 => ⟨rfl, by unfold generate; simp⟩, ?_, by simp⟩
  have hall : ∀ u, 1 ≤ u → u ≤ 40 → fits u = false := by
    intro u _ hu40
    cases hfu : fits u
    · rfl
    · have h2 := hmono u 40 hu40 hfu
      rw [h40] at h2
      exact h2.symm
  have hten : calculateTypeNumber fits = 10 :=
    typeLoop_eq_ten fits 40 1 (by omega) hall
  have hfit10 : fits (calculateTypeNumber fits) = false := by
    rw [hten]
    exact hall 10 (by omega) (by omega)
  unfold generate
  simp [htext, hfit10]

/-- Concrete instance of C7: a one-character text whose encoding is
rejected at every type number. -/
theorem generate_fail_fast_witness :
    ("a" ≠ "") ∧
    ((fun _ : Nat => false) 40 = false) ∧
    ((∀ (fits2 : Nat → Bool) (enc2 : Nat → QR),
      generate fits2 enc2 none
        ⟨512, .squares, "#000000", "#ffffff", false, 4⟩ = .error .inputError ∧
      generate fits2 enc2 (some "")
        ⟨512, .squares, "#000000", "#ffffff", false, 4⟩ = .error .inputError) ∧
    generate (fun _ => false) (fun _ => ⟨21, fun _ _ => false⟩) (some "a")
      ⟨512, .squares, "#000000", "#ffffff", false, 4⟩ = .error .capacityError ∧
    QRError.inputError ≠ QRError.capacityError) :=
  ⟨by decide, rfl,
    generate_fail_fast (fun _ => false) (fun _ => ⟨21, fun _ _ => false⟩)
      ⟨512, .squares, "#000000", "#ffffff", false, 4⟩ "a" (by decide)
      (fun _ _ _ h => h) rfl⟩

end TypeNumber

section Background

/-- Painting a list of commands none of which covers the point leaves the
pixel unchanged. -/
theorem foldl_paintAt_const (px py : ℚ) :
    ∀ (l : List Cmd) (acc : Option Pixel),
      (∀ c ∈ l, c.covers px py = false) →
      List.foldl (paintAt px py) acc l = acc := by
  intro l
  induction l with
  | nil => intro acc _; rfl
  | cons c cs ih =>
    intro acc h
    have hc : c.covers px py = false := h c (List.mem_cons_self c cs)
    simp only [List.foldl_cons, paintAt, hc, Bool.false_eq_true, if_false]
    exact ih acc fun d hd => h d (List.mem_cons_of_mem c hd)

/-- C2: for every render call, the backgroundColor fill of the whole
surface is performed if and only if `transparentBackground` is false, and
when performed it is the first command, before any dark module is drawn;
with `transparentBackground = true` every non-module pixel of the canvas
has zero alpha (`none`), and with `transparentBackground = false` every
non-module pixel equals `backgroundColor` exactly. -/
theorem renderToCanvas_background (qr : QR) (o : RenderOpts) :
    (o.transparentBackground = false →
      (renderToCanvas qr o).cmds =
        Cmd.fillRect 0 0 o.size o.size o.backgroundColor :: moduleCmds qr o) ∧
    (o.transparentBackground = true →
      (renderToCanvas qr o).cmds = moduleCmds qr o) ∧
    (∀ px py, 0 ≤ px → px < o.size → 0 ≤ py → py < o.size →
      (∀ c ∈ moduleCmds qr o, c.covers px py = false) →
      (renderToCanvas qr o).pixelAt px py =
        if o.transparentBackground then none
        else some (.solid o.backgroundColor)) := by
  refine ⟨fun ht => by simp [renderToCanvas, ht], fun ht => by simp [renderToCanvas, ht], ?_⟩
  intro px py h1 h2 h3 h4 hmods
  unfold Surface.pixelAt renderToCanvas
  cases htr : o.transparentBackground
  · simp only [Bool.false_eq_true, if_false, List.foldl_append]
    have hbg : (Cmd.fillRect 0 0 o.size o.size o.backgroundColor).covers px py = true := by
      simp only [Cmd.covers, decide_eq_true_eq, zero_add]
      exact ⟨h1, h2, h3, h4⟩
    rw [foldl_paintAt_const px py _ _ hmods]
    simp [paintAt, hbg, Cmd.pixel]
  · simp only [if_true, List.nil_append]
    rw [foldl_paintAt_const px py _ _ hmods]

/-- Concrete instance of C2: the all-light matrix at the default options;
the origin pixel is a non-module pixel and receives the background
color. -/
theorem renderToCanvas_background_witness :
    ((0 : ℚ) ≤ 0 ∧ (0 : ℚ) < testOpts.size ∧
      (∀ c ∈ moduleCmds lightQR testOpts, c.covers 0 0 = false)) ∧
    (renderToCanvas lightQR testOpts).pixelAt 0 0 =
      (if testOpts.transparentBackground then none
       else some (.solid testOpts.backgroundColor)) :=
  ⟨⟨le_refl 0, by norm_num [testOpts], by decide⟩,
    (renderToCanvas_background lightQR testOpts).2.2 0 0 (le_refl 0)
      (by norm_num [testOpts]) (le_refl 0) (by norm_num [testOpts]) (by decide)⟩

end Background

section Squares

/-- Membership in `darkCells` is exactly being an in-range dark cell. -/
theorem mem_darkCells {qr : QR} {r c : Nat} :
    (r, c) ∈ darkCells qr ↔
      r < qr.moduleCount ∧ c < qr.moduleCount ∧ qr.isDark r c = true := by
  simp only [darkCells, List.mem_flatMap, List.mem_map, List.mem_filter,
    List.mem_range, Prod.mk.injEq]
  constructor
  · rintro ⟨a, ha, b, ⟨hb, hd⟩, hbc, har⟩
    subst hbc; subst har
    exact ⟨ha, hb, hd⟩
  · rintro ⟨hr, hc, hd⟩
    exact ⟨r, hr, c, ⟨hc, hd⟩, rfl, rfl⟩

/-- Horizontal (or vertical) cell coordinates of distinct indices give
disjoint half-open scaled intervals. -/
theorem cell_interval_disjoint (cs : ℚ) (hcs : 0 < cs) (m : Nat) {a b : Nat}
    (hab : a ≠ b) (x : ℚ) :
    ¬(((a : ℚ) + (m : ℚ)) * cs ≤ x ∧ x < ((a : ℚ) + (m : ℚ) + 1) * cs ∧
      ((b : ℚ) + (m : ℚ)) * cs ≤ x ∧ x < ((b : ℚ) + (m : ℚ) + 1) * cs) := by
  rintro ⟨h1, h2, h3, h4⟩
  rcases Nat.lt_or_ge a b with h | h
  · have hcast : (a : ℚ) + 1 ≤ (b : ℚ) := by exact_mod_cast h
    nlinarith
  · have hba : b < a := by omega
    have hcast : (b : ℚ) + 1 ≤ (a : ℚ) := by exact_mod_cast hba
    nlinarith

/-- Scaled cell coordinates are injective when the cell size is
positive. -/
theorem cellCoord_inj (cs : ℚ) (hcs : 0 < cs) (t : ℚ) {a b : Nat}
    (h : ((a : ℚ) + t) * cs = ((b : ℚ) + t) * cs) : a = b := by
  have h2 := mul_right_cancel₀ (ne_of_gt hcs) h
  have h3 : (a : ℚ) = (b : ℚ) := by linarith
  exact_mod_cast h3

/-- C3: in Squares style with `cellSize = size / (moduleCount + 2·margin)`,
a filled axis-aligned square of side exactly `cellSize` is drawn at
`((col+margin)·cellSize, (row+margin)·cellSize)` for a cell `(row, col)` if
and only if that module is dark; the union of the drawn squares covers
exactly the scaled dark-cell set (no gap, no omission), squares of distinct
cells never overlap, and quiet-zone points are never filled. -/
theorem renderSquares_tiling (qr : QR) (o : RenderOpts)
    (hstyle : o.style = .squares) (hcs : 0 < cellSizeOf qr o) :
    (∀ r c, r < qr.moduleCount → c < qr.moduleCount →
      (Cmd.fillRect (((c : ℚ) + (o.margin : ℚ)) * cellSizeOf qr o)
          (((r : ℚ) + (o.margin : ℚ)) * cellSizeOf qr o)
          (cellSizeOf qr o) (cellSizeOf qr o) o.foregroundColor ∈ moduleCmds qr o
        ↔ qr.isDark r c = true)) ∧
    (∀ px py, (∃ cmd ∈ moduleCmds qr o, cmd.covers px py = true) ↔
      (∃ r c, r < qr.moduleCount ∧ c < qr.moduleCount ∧ qr.isDark r c = true ∧
        inCellRect (cellSizeOf qr o) o.margin r c px py)) ∧
    (∀ r c r2 c2 px py, (r, c) ≠ (r2, c2) →
      ¬(inCellRect (cellSizeOf qr o) o.margin r c px py ∧
        inCellRect (cellSizeOf qr o) o.margin r2 c2 px py)) ∧
    (∀ px py,
      (px < (o.margin : ℚ) * cellSizeOf qr o ∨
       ((qr.moduleCount : ℚ) + (o.margin : ℚ)) * cellSizeOf qr o ≤ px ∨
       py < (o.margin : ℚ) * cellSizeOf qr o ∨
       ((qr.moduleCount : ℚ) + (o.margin : ℚ)) * cellSizeOf qr o ≤ py) →
      ∀ cmd ∈ moduleCmds qr o, cmd.covers px py = false) := by
  have hmods : moduleCmds qr o =
      renderSquares qr (cellSizeOf qr o) o.margin o.foregroundColor := by
    unfold moduleCmds
    rw [hstyle]
  set cs := cellSizeOf qr o with hcsdef
  have hcover : ∀ r c : Nat, ∀ px py : ℚ,
      ((Cmd.fillRect (((c : ℚ) + (o.margin : ℚ)) * cs)
        (((r : ℚ) + (o.margin : ℚ)) * cs) cs cs o.foregroundColor).covers px py = true)
      ↔ inCellRect cs o.margin r c px py := by
    intro r c px py
    simp only [Cmd.covers, decide_eq_true_eq, inCellRect]
    constructor
    · rintro ⟨a1, a2, a3, a4⟩
      refine ⟨a1, by nlinarith, a3, by nlinarith⟩
    · rintro ⟨a1, a2, a3, a4⟩
      refine ⟨a1, by nlinarith, a3, by nlinarith⟩
  refine ⟨?_, ?_, ?_, ?_⟩
  · intro r c hr hc
    rw [hmods]
    unfold renderSquares
    simp only [List.mem_map]
    constructor
    · rintro ⟨⟨r2, c2⟩, hmem, heq⟩
      obtain ⟨hr2, hc2, hd2⟩ := mem_darkCells.1 hmem
      simp only [Cmd.fillRect.injEq] at heq
      have hc3 : c2 = c := cellCoord_inj cs hcs o.margin heq.1
      have hr3 : r2 = r := cellCoord_inj cs hcs o.margin heq.2.1
      rw [hc3, hr3] at hd2
      exact hd2
    · intro hd
      exact ⟨(r, c), mem_darkCells.2 ⟨hr, hc, hd⟩, rfl⟩
  · intro px py
    rw [hmods]
    unfold renderSquares
    constructor
    · rintro ⟨cmd, hmem, hcov⟩
      simp only [List.mem_map] at hmem
      obtain ⟨⟨r2, c2⟩, hmem2, heq⟩ := hmem
      obtain ⟨hr2, hc2, hd2⟩ := mem_darkCells.1 hmem2
      refine ⟨r2, c2, hr2, hc2, hd2, ?_⟩
      rw [← heq] at hcov
      exact (hcover r2 c2 px py).1 hcov
    · rintro ⟨r, c, hr, hc, hd, hin⟩
      refine ⟨Cmd.fillRect (((c : ℚ) + (o.margin : ℚ)) * cs)
        (((r : ℚ) + (o.margin : ℚ)) * cs) cs cs o.foregroundColor, ?_, ?_⟩
      · simp only [List.mem_map]
        exact ⟨(r, c), mem_darkCells.2 ⟨hr, hc, hd⟩, rfl⟩
      · exact (hcover r c px py).2 hin
  · rintro r c r2 c2 px py hne ⟨⟨a1, a2, a3, a4⟩, ⟨b1, b2, b3, b4⟩⟩
    by_cases hcc : c = c2
    · have hrr : r ≠ r2 := by
        intro he
        exact hne (by rw [he, hcc])
      exact cell_interval_disjoint cs hcs o.margin hrr py ⟨a3, a4, b3, b4⟩
    · exact cell_interval_disjoint cs hcs o.margin hcc px ⟨a1, a2, b1, b2⟩
  · intro px py hquiet cmd hmem
    rw [hmods] at hmem
    unfold renderSquares at hmem
    simp only [List.mem_map] at hmem
    obtain ⟨⟨r2, c2⟩, hmem2, heq⟩ := hmem
    obtain ⟨hr2, hc2, _⟩ := mem_darkCells.1 hmem2
    cases hcov : cmd.covers px py
    · rfl
    · exfalso
      rw [← heq] at hcov
      obtain ⟨a1, a2, a3, a4⟩ := (hcover r2 c2 px py).1 hcov
      have hcx : (0 : ℚ) ≤ (c2 : ℚ) := Nat.cast_nonneg c2
      have hrx : (0 : ℚ) ≤ (r2 : ℚ) := Nat.cast_nonneg r2
      have hcn : (c2 : ℚ) + 1 ≤ (qr.moduleCount : ℚ) := by exact_mod_cast hc2
      have hrn : (r2 : ℚ) + 1 ≤ (qr.moduleCount : ℚ) := by exact_mod_cast hr2
      rcases hquiet with h | h | h | h
      · nlinarith
      · nlinarith
      · nlinarith
      · nlinarith

/-- Concrete instance of C3: on the checkerboard matrix at the default
options, the cells `(0,0)` and `(0,1)` have disjoint drawn squares. -/
theorem renderSquares_tiling_witness :
    testOpts.style = .squares ∧ (0 : ℚ) < cellSizeOf checkerQR testOpts ∧
    ¬(inCellRect (cellSizeOf checkerQR testOpts) testOpts.margin 0 0 1 1 ∧
      inCellRect (cellSizeOf checkerQR testOpts) testOpts.margin 0 1 1 1) := by
  have hcs : (0 : ℚ) < cellSizeOf checkerQR testOpts := by
    norm_num [cellSizeOf, checkerQR, testOpts]
  exact ⟨rfl, hcs,
    (renderSquares_tiling checkerQR testOpts rfl hcs).2.2.1 0 0 0 1 1 1 (by decide)⟩

end Squares

section Dots

/-- The squared rational distance between distinct natural numbers is at
least one. -/
theorem one_le_natDiff_sq {a b : Nat} (h : a ≠ b) :
    1 ≤ ((a : ℚ) - (b : ℚ)) ^ 2 := by
  rcases Nat.lt_or_ge a b with hab | hab
  · have hcast : (a : ℚ) + 1 ≤ (b : ℚ) := by exact_mod_cast hab
    nlinarith
  · have hba : b < a := by omega
    have hcast : (b : ℚ) + 1 ≤ (a : ℚ) := by exact_mod_cast hba
    nlinarith

/-- C4: in Dots style, every dark module is drawn as a filled circle
centered at the center of its cell,
`((col+margin+0.5)·cellSize, (row+margin+0.5)·cellSize)`, with radius
exactly `0.45·cellSize`, and only dark modules are; for `cellSize ≥ 10`,
the centers of the dots of two distinct (in particular adjacent) cells are
at least `cellSize` apart while the radii sum to `0.9·cellSize`, so their
filled regions share no point. -/
theorem renderDots_geometry (qr : QR) (o : RenderOpts)
    (hstyle : o.style = .dots) (hcs : 10 ≤ cellSizeOf qr o) :
    (∀ r c, r < qr.moduleCount → c < qr.moduleCount →
      (Cmd.fillCircle (((c : ℚ) + (o.margin : ℚ) + 1/2) * cellSizeOf qr o)
          (((r : ℚ) + (o.margin : ℚ) + 1/2) * cellSizeOf qr o)
          (cellSizeOf qr o * (45/100)) o.foregroundColor ∈ moduleCmds qr o
        ↔ qr.isDark r c = true)) ∧
    (∀ r c r2 c2 : Nat, (r, c) ≠ (r2, c2) →
      (cellSizeOf qr o) ^ 2 ≤
        (((c : ℚ) + (o.margin : ℚ) + 1/2) * cellSizeOf qr o -
         ((c2 : ℚ) + (o.margin : ℚ) + 1/2) * cellSizeOf qr o) ^ 2 +
        (((r : ℚ) + (o.margin : ℚ) + 1/2) * cellSizeOf qr o -
         ((r2 : ℚ) + (o.margin : ℚ) + 1/2) * cellSizeOf qr o) ^ 2 ∧
      ∀ px py : ℚ,
        ¬((Cmd.fillCircle (((c : ℚ) + (o.margin : ℚ) + 1/2) * cellSizeOf qr o)
            (((r : ℚ) + (o.margin : ℚ) + 1/2) * cellSizeOf qr o)
            (cellSizeOf qr o * (45/100)) o.foregroundColor).covers px py = true ∧
          (Cmd.fillCircle (((c2 : ℚ) + (o.margin : ℚ) + 1/2) * cellSizeOf qr o)
            (((r2 : ℚ) + (o.margin : ℚ) + 1/2) * cellSizeOf qr o)
            (cellSizeOf qr o * (45/100)) o.foregroundColor).covers px py = true)) := by
  have hcs0 : (0 : ℚ) < cellSizeOf qr o := by linarith
  have hmods : moduleCmds qr o =
      renderDots qr (cellSizeOf qr o) o.margin o.foregroundColor := by
    unfold moduleCmds
    rw [hstyle]
  set cs := cellSizeOf qr o with hcsdef
  constructor
  · intro r c hr hc
    rw [hmods]
    unfold renderDots
    simp only [List.mem_map]
    constructor
    · rintro ⟨⟨r2, c2⟩, hmem, heq⟩
      obtain ⟨hr2, hc2, hd2⟩ := mem_darkCells.1 hmem
      simp only [Cmd.fillCircle.injEq] at heq
      have hadd : ((c2 : ℚ) + ((o.margin : ℚ) + 1/2)) * cs =
          ((c : ℚ) + ((o.margin : ℚ) + 1/2)) * cs := by
        rw [← add_assoc, ← add_assoc]
        exact heq.1
      have hadd2 : ((r2 : ℚ) + ((o.margin : ℚ) + 1/2)) * cs =
          ((r : ℚ) + ((o.margin : ℚ) + 1/2)) * cs := by
        rw [← add_assoc, ← add_assoc]
        exact heq.2.1
      have hc3 : c2 = c := cellCoord_inj cs hcs0 ((o.margin : ℚ) + 1/2) hadd
      have hr3 : r2 = r := cellCoord_inj cs hcs0 ((o.margin : ℚ) + 1/2) hadd2
      rw [hc3, hr3] at hd2
      exact hd2
    · intro hd
      exact ⟨(r, c), mem_darkCells.2 ⟨hr, hc, hd⟩, rfl⟩
  · intro r c r2 c2 hne
    have hdist : cs ^ 2 ≤
        (((c : ℚ) + (o.margin : ℚ) + 1/2) * cs -
         ((c2 : ℚ) + (o.margin : ℚ) + 1/2) * cs) ^ 2 +
        (((r : ℚ) + (o.margin : ℚ) + 1/2) * cs -
         ((r2 : ℚ) + (o.margin : ℚ) + 1/2) * cs) ^ 2 := by
      have hsum : 1 ≤ ((c : ℚ) - (c2 : ℚ)) ^ 2 + ((r : ℚ) - (r2 : ℚ)) ^ 2 := by
        by_cases hcc : c = c2
        · have hrr : r ≠ r2 := by
            intro he
            exact hne (by rw [he, hcc])
          have h1 := one_le_natDiff_sq hrr
          have h2 : (0 : ℚ) ≤ ((c : ℚ) - (c2 : ℚ)) ^ 2 := sq_nonneg _
          linarith
        · have h1 := one_le_natDiff_sq hcc
          have h2 : (0 : ℚ) ≤ ((r : ℚ) - (r2 : ℚ)) ^ 2 := sq_nonneg _
          linarith
      have hexp : (((c : ℚ) + (o.margin : ℚ) + 1/2) * cs -
          ((c2 : ℚ) + (o.margin : ℚ) + 1/2) * cs) ^ 2 +
          (((r : ℚ) + (o.margin : ℚ) + 1/2) * cs -
          ((r2 : ℚ) + (o.margin : ℚ) + 1/2) * cs) ^ 2 =
          (((c : ℚ) - (c2 : ℚ)) ^ 2 + ((r : ℚ) - (r2 : ℚ)) ^ 2) * cs ^ 2 := by
        ring
      rw [hexp]
      nlinarith [sq_nonneg cs]
    refine ⟨hdist, ?_⟩
    rintro px py ⟨h1, h2⟩
    simp only [Cmd.covers, decide_eq_true_eq] at h1 h2
    nlinarith [sq_nonneg ((px - ((c : ℚ) + (o.margin : ℚ) + 1/2) * cs) +
        (px - ((c2 : ℚ) + (o.margin : ℚ) + 1/2) * cs)),
      sq_nonneg ((py - ((r : ℚ) + (o.margin : ℚ) + 1/2) * cs) +
        (py - ((r2 : ℚ) + (o.margin : ℚ) + 1/2) * cs)),
      hdist, h1, h2, hcs]

/-- Concrete instance of C4: at `cellSize = 10`, the dots of the adjacent
cells `(0,0)` and `(0,1)` share no point. -/
theorem renderDots_geometry_witness :
    dotsOpts.style = .dots ∧ (10 : ℚ) ≤ cellSizeOf checkerQR dotsOpts ∧
    ∀ px py : ℚ,
      ¬((Cmd.fillCircle (((0 : ℚ) + (dotsOpts.margin : ℚ) + 1/2) * cellSizeOf checkerQR dotsOpts)
          (((0 : ℚ) + (dotsOpts.margin : ℚ) + 1/2) * cellSizeOf checkerQR dotsOpts)
          (cellSizeOf checkerQR dotsOpts * (45/100)) dotsOpts.foregroundColor).covers px py = true ∧
        (Cmd.fillCircle (((1 : ℚ) + (dotsOpts.margin : ℚ) + 1/2) * cellSizeOf checkerQR dotsOpts)
          (((0 : ℚ) + (dotsOpts.margin : ℚ) + 1/2) * cellSizeOf checkerQR dotsOpts)
          (cellSizeOf checkerQR dotsOpts * (45/100)) dotsOpts.foregroundColor).covers px py = true) := by
  have hcs : (10 : ℚ) ≤ cellSizeOf checkerQR dotsOpts := by
    norm_num [cellSizeOf, checkerQR, dotsOpts]
  have h := ((renderDots_geometry checkerQR dotsOpts rfl hcs).2 0 0 0 1 (by decide)).2
  refine ⟨rfl, hcs, ?_⟩
  intro px py
  have h2 := h px py
  norm_num at h2 ⊢
  exact h2

end Dots

section Logo

/-- Centering a `dw × dh` rectangle inside the `maxSize × maxSize` box at
`(x, y)` keeps it inside the box and puts its center on the box center. -/
theorem logoBoxProps (x y maxSize dw dh : ℚ) (_h1 : 0 ≤ dw) (h2 : dw ≤ maxSize)
    (_h3 : 0 ≤ dh) (h4 : dh ≤ maxSize) :
    (x + (maxSize - dw) / 2 + dw / 2 = x + maxSize / 2 ∧
     y + (maxSize - dh) / 2 + dh / 2 = y + maxSize / 2) ∧
    (x ≤ x + (maxSize - dw) / 2 ∧ x + (maxSize - dw) / 2 + dw ≤ x + maxSize ∧
     y ≤ y + (maxSize - dh) / 2 ∧ y + (maxSize - dh) / 2 + dh ≤ y + maxSize) :=
  ⟨⟨by ring, by ring⟩, ⟨by linarith, by linarith, by linarith, by linarith⟩⟩

/-- C8: for every loaded logo image and logo box of side `maxSize`, the
drawn logo preserves the source aspect ratio — the longer source dimension
is scaled to exactly `maxSize`, the shorter dimension is scaled by the same
factor (a 2:1 landscape source is drawn with height half its width), the
drawn rectangle is centered within the box, and it is never stretched and
never extends outside the box. -/
theorem drawLogo_aspect (imgId : Nat) (img : ImageDims) (x y maxSize : ℚ)
    (hw : 0 < img.width) (hh : 0 < img.height) (hm : 0 ≤ maxSize) :
    ∃ dx dy dw dh,
      drawLogo imgId img x y maxSize = .drawImage imgId dx dy dw dh ∧
      dw * img.height = dh * img.width ∧
      (img.height < img.width → dw = maxSize) ∧
      (img.width < img.height → dh = maxSize) ∧
      (img.width = img.height → dw = maxSize ∧ dh = maxSize) ∧
      (0 ≤ dw ∧ dw ≤ maxSize ∧ 0 ≤ dh ∧ dh ≤ maxSize) ∧
      (dx + dw / 2 = x + maxSize / 2 ∧ dy + dh / 2 = y + maxSize / 2) ∧
      (x ≤ dx ∧ dx + dw ≤ x + maxSize ∧ y ≤ dy ∧ dy + dh ≤ y + maxSize) ∧
      (img.width = 2 * img.height → dh = dw / 2) := by
  have hwne : img.width ≠ 0 := ne_of_gt hw
  have hhne : img.height ≠ 0 := ne_of_gt hh
  simp only [drawLogo]
  split_ifs with h1 h2
  · -- landscape: 1 < width / height
    have hlt : img.height < img.width := (one_lt_div hh).1 h1
    have har : (0 : ℚ) < img.width / img.height := div_pos hw hh
    have hd0 : 0 ≤ maxSize / (img.width / img.height) :=
      div_nonneg hm (le_of_lt har)
    have hdm : maxSize / (img.width / img.height) ≤ maxSize :=
      div_le_self hm (le_of_lt h1)
    obtain ⟨hcent, hbox⟩ :=
      logoBoxProps x y maxSize maxSize (maxSize / (img.width / img.height))
        hm (le_refl maxSize) hd0 hdm
    refine ⟨_, _, maxSize, maxSize / (img.width / img.height), rfl, ?_,
      fun _ => rfl, fun hc => absurd hc (by linarith),
      fun hc => absurd hc (by linarith),
      ⟨hm, le_refl maxSize, hd0, hdm⟩, hcent, hbox, ?_⟩
    · field_simp
    · intro h21
      rw [h21]
      have hq : (2 * img.height) / img.height = 2 := by
        field_simp
      rw [hq]
  · -- portrait: width / height < 1
    have hlt : img.width < img.height := (div_lt_one hh).1 h2
    have har : (0 : ℚ) < img.width / img.height := div_pos hw hh
    have hd0 : 0 ≤ maxSize * (img.width / img.height) :=
      mul_nonneg hm (le_of_lt har)
    have hdm : maxSize * (img.width / img.height) ≤ maxSize := by
      nlinarith
    obtain ⟨hcent, hbox⟩ :=
      logoBoxProps x y maxSize (maxSize * (img.width / img.height)) maxSize
        hd0 hdm hm (le_refl maxSize)
    refine ⟨_, _, maxSize * (img.width / img.height), maxSize, rfl, ?_,
      fun hc => absurd hc (by linarith), fun _ => rfl,
      fun hc => absurd hc (by linarith),
      ⟨hd0, hdm, hm, le_refl maxSize⟩, hcent, hbox, ?_⟩
    · field_simp
    · intro h21
      exfalso
      rw [h21] at hlt
      linarith
  · -- square: width / height = 1
    have hone : img.width / img.height = 1 := by
      rcases lt_trichotomy (img.width / img.height) 1 with h | h | h
      · exact absurd h h2
      · exact h
      · exact absurd h h1
    have heq : img.width = img.height := by
      field_simp at hone
      exact hone
    obtain ⟨hcent, hbox⟩ :=
      logoBoxProps x y maxSize maxSize maxSize hm (le_refl maxSize) hm
        (le_refl maxSize)
    refine ⟨_, _, maxSize, maxSize, rfl, by rw [heq],
      fun hc => absurd hc (by linarith), fun hc => absurd hc (by linarith),
      fun _ => ⟨rfl, rfl⟩,
      ⟨hm, le_refl maxSize, hm, le_refl maxSize⟩, hcent, hbox, ?_⟩
    intro h21
    exfalso
    rw [heq] at h21
    nlinarith

/-- Concrete instance of C8: a 2:1 landscape source in a 100-wide logo box
is drawn 100 wide and 50 high, centered. -/
theorem drawLogo_aspect_witness :
    ((0 : ℚ) < (200 : ℚ) ∧ (0 : ℚ) < (100 : ℚ) ∧ (0 : ℚ) ≤ (100 : ℚ)) ∧
    ∃ dx dy dw dh,
      drawLogo 7 ⟨200, 100⟩ 0 0 100 = .drawImage 7 dx dy dw dh ∧
      dw * (ImageDims.mk 200 100).height = dh * (ImageDims.mk 200 100).width ∧
      ((ImageDims.mk 200 100).height < (ImageDims.mk 200 100).width → dw = 100) ∧
      ((ImageDims.mk 200 100).width < (ImageDims.mk 200 100).height → dh = 100) ∧
      ((ImageDims.mk 200 100).width = (ImageDims.mk 200 100).height →
        dw = 100 ∧ dh = 100) ∧
      (0 ≤ dw ∧ dw ≤ 100 ∧ 0 ≤ dh ∧ dh ≤ 100) ∧
      (dx + dw / 2 = 0 + 100 / 2 ∧ dy + dh / 2 = 0 + 100 / 2) ∧
      ((0 : ℚ) ≤ dx ∧ dx + dw ≤ 0 + 100 ∧ (0 : ℚ) ≤ dy ∧ dy + dh ≤ 0 + 100) ∧
      ((ImageDims.mk 200 100).width = 2 * (ImageDims.mk 200 100).height →
        dh = dw / 2) :=
  ⟨⟨by norm_num, by norm_num, by norm_num⟩,
    drawLogo_aspect 7 ⟨200, 100⟩ 0 0 100 (by norm_num) (by norm_num) (by norm_num)⟩

/-- C9: the logo-overlay operation returns a new output surface whose
width and height equal the base surface's width and height, and leaves the
base surface itself untouched (every drawing call targets the fresh output
canvas). -/
theorem addLogoOverlay_dims (base : Surface) (logoId : Nat)
    (logoDims : ImageDims) (opts : OverlayOpts) :
    (addLogoOverlay base logoId logoDims opts).1 = base ∧
    (addLogoOverlay base logoId logoDims opts).2.width = base.width ∧
    (addLogoOverlay base logoId logoDims opts).2.height = base.height :=
  ⟨rfl, rfl, rfl⟩

end Logo

section Gif

/-- The encoder frame list entry at index `i`: the canvas at `i` paired
with its delay, with 100 substituted for a zero delay. -/
theorem gifFrames_getD :
    ∀ (canvases : List Surface) (delays : List Nat) (i : Nat),
      i < canvases.length → i < delays.length →
      ((gifFrames canvases delays).getD i default).2 =
        (if delays.getD i 0 = 0 then 100 else delays.getD i 0) := by
  intro canvases
  induction canvases with
  | nil =>
    intro delays i hc _
    exact absurd hc (by simp)
  | cons c cs ih =>
    intro delays i hc hd
    cases delays with
    | nil => exact absurd hd (by simp)
    | cons d ds =>
      cases i with
      | zero => simp [gifFrames]
      | succ j =>
        simp only [gifFrames, List.getD_cons_succ]
        exact ih ds j (by simpa using hc) (by simpa using hd)

/-- C10: in `createAnimatedGIF`, every frame whose supplied delay value is
falsy is added to the output container with delay 100 instead of its
supplied value; for an input sequence containing a zero delay the encoded
output delay sequence differs from the input at that position, while
frames with non-zero delays keep their value unchanged. -/
theorem createAnimatedGIF_delay_default (canvases : List Surface)
    (delays : List Nat) (i : Nat) (hne : canvases ≠ [])
    (hc : i < canvases.length) (hd : i < delays.length) :
    createAnimatedGIF true canvases delays = .ok (gifFrames canvases delays) ∧
    ((gifFrames canvases delays).getD i default).2 =
      (if delays.getD i 0 = 0 then 100 else delays.getD i 0) ∧
    (delays.getD i 0 = 0 →
      ((gifFrames canvases delays).getD i default).2 ≠ delays.getD i 0) ∧
    (delays.getD i 0 ≠ 0 →
      ((gifFrames canvases delays).getD i default).2 = delays.getD i 0) := by
  have hlen : canvases.length ≠ 0 := by
    intro h
    exact hne (List.length_eq_zero.1 h)
  have hmain := gifFrames_getD canvases delays i hc hd
  refine ⟨by simp [createAnimatedGIF, hlen], hmain, ?_, ?_⟩
  · intro hz
    rw [hmain, hz]
    simp
  · intro hnz
    rw [hmain]
    exact if_neg hnz

/-- Concrete instance of C10: two frames with delays `[0, 20]`; the first
output delay becomes 100 and so differs from the input, the second stays
20. -/
theorem createAnimatedGIF_delay_default_witness :
    ([newCanvas 1 1, newCanvas 2 2] ≠ ([] : List Surface)) ∧
    createAnimatedGIF true [newCanvas 1 1, newCanvas 2 2] [0, 20] =
      .ok (gifFrames [newCanvas 1 1, newCanvas 2 2] [0, 20]) ∧
    ((gifFrames [newCanvas 1 1, newCanvas 2 2] [0, 20]).getD 0 default).2 =
      (if [0, 20].getD 0 0 = 0 then 100 else [0, 20].getD 0 0) ∧
    ([0, 20].getD 0 0 = 0 →
      ((gifFrames [newCanvas 1 1, newCanvas 2 2] [0, 20]).getD 0 default).2 ≠
        [0, 20].getD 0 0) ∧
    ([0, 20].getD 0 0 ≠ 0 →
      ((gifFrames [newCanvas 1 1, newCanvas 2 2] [0, 20]).getD 0 default).2 =
        [0, 20].getD 0 0) :=
  ⟨by simp,
    createAnimatedGIF_delay_default [newCanvas 1 1, newCanvas 2 2] [0, 20] 0
      (by simp) (by simp) (by simp)⟩

/-- A decoded delay is never zero: `frame.delay || 100` replaces both an
absent and a zero raw delay by 100. -/
theorem jsOrDefault_ne_zero (v : Option Nat) : jsOrDefault v 100 ≠ 0 := by
  cases v with
  | none => simp [jsOrDefault]
  | some k =>
    by_cases hk : k = 0
    · simp [jsOrDefault, hk]
    · simp [jsOrDefault, hk]

/-- Re-encoding pairs whose delays are all non-zero reproduces them
exactly. -/
theorem gifFrames_of_nonzero :
    ∀ ps : List (Surface × Nat), (∀ p ∈ ps, p.2 ≠ 0) →
      gifFrames (ps.map Prod.fst) (ps.map Prod.snd) = ps := by
  intro ps
  induction ps with
  | nil => intro _; rfl
  | cons p rest ih =>
    intro h
    have hp : p.2 ≠ 0 := h p (List.mem_cons_self p rest)
    simp only [List.map_cons, gifFrames, if_neg hp]
    rw [ih fun q hq => h q (List.mem_cons_of_mem p hq)]

/-- On an all-success run, the per-frame loop returns one composited
(canvas, delay) pair per decoded frame, in source order. -/
theorem frameLoop_success (fits : Nat → Bool) (enc : Nat → QR)
    (text : Option String) (o : RenderOpts) (ovOk : Nat → Bool) (tn : Nat)
    (qc : Surface) (hgen : generate fits enc text o = .ok (tn, qc))
    (hov : ∀ i, ovOk i = true) :
    ∀ (fs : List Frame) (i : Nat),
      frameLoop fits enc text o ovOk fs i =
        .ok (fs.map fun f =>
          ((addLogoOverlay qc f.imageData ⟨f.width, f.height⟩
            (appOverlayOpts o.style)).2, f.delay)) := by
  intro fs
  induction fs with
  | nil => intro i; rfl
  | cons f rest ih =>
    intro i
    simp only [frameLoop, hgen, hov i, if_true, ih (i + 1), List.map_cons]

/-- C5: for every decoded animation, the animated pipeline produces
exactly one output frame per decoded frame, in the same order (frame `i`
of the output is the composite of decoded frame `i` over the regenerated
base QR canvas), and the output delay sequence equals the decoded delay
sequence element-wise. -/
theorem animatedPipeline_frames (env : AnimEnv) (fits : Nat → Bool)
    (enc : Nat → QR) (text : Option String) (o : RenderOpts)
    (raws : List RawFrame) (tn : Nat) (qc : Surface)
    (h1 : env.gifuctLoaded = true) (h2 : env.gifLoaded = true)
    (hdec : env.decompressResult = .ok raws) (hne : raws ≠ [])
    (hgen : generate fits enc text o = .ok (tn, qc))
    (hov : ∀ i, env.overlayOk i = true) (henc : env.encodeOk = true) :
    animatedAttempt env fits enc text o =
      .ok ((raws.map decodeFrame).map fun f =>
        ((addLogoOverlay qc f.imageData ⟨f.width, f.height⟩
          (appOverlayOpts o.style)).2, f.delay)) ∧
    ∀ out, animatedAttempt env fits enc text o = .ok out →
      out.length = (raws.map decodeFrame).length ∧
      out.map Prod.snd = (raws.map decodeFrame).map Frame.delay := by
  have hlen : raws.length ≠ 0 := by
    intro h
    exact hne (List.length_eq_zero.1 h)
  set pairs := (raws.map decodeFrame).map fun f =>
    ((addLogoOverlay qc f.imageData ⟨f.width, f.height⟩
      (appOverlayOpts o.style)).2, f.delay) with hpairs
  have hnz : ∀ p ∈ pairs, p.2 ≠ 0 := by
    intro p hp
    rw [hpairs] at hp
    simp only [List.mem_map] at hp
    obtain ⟨f, hf, hfp⟩ := hp
    obtain ⟨raw, _, hraw⟩ := hf
    rw [← hfp]
    simp only
    rw [← hraw]
    exact jsOrDefault_ne_zero raw.delay
  have hplen : pairs.length ≠ 0 := by
    rw [hpairs]
    simpa using hlen
  have henc2 : createAnimatedGIF env.gifLoaded (pairs.map Prod.fst)
      (pairs.map Prod.snd) = .ok pairs := by
    unfold createAnimatedGIF
    rw [h2, gifFrames_of_nonzero pairs hnz]
    have hfst : (pairs.map Prod.fst).length = pairs.length := by simp
    rw [hfst]
    simp [hplen]
  have hmain : animatedAttempt env fits enc text o = .ok pairs := by
    unfold animatedAttempt
    rw [h1, h2]
    simp only [Bool.and_self, Bool.not_true, Bool.false_eq_true, if_false]
    rw [hdec]
    dsimp only
    have hparse : parseGIF raws = .ok (raws.map decodeFrame) := by
      unfold parseGIF
      rw [if_neg hlen]
    rw [hparse]
    dsimp only
    rw [frameLoop_success fits enc text o env.overlayOk tn qc hgen hov
      (raws.map decodeFrame) 0]
    dsimp only
    rw [← hpairs]
    have htrue : createAnimatedGIF true (List.map Prod.fst pairs)
        (List.map Prod.snd pairs) = Except.ok pairs := by
      rw [← h2]
      exact henc2
    rw [htrue]
    dsimp only
    rw [henc]
    simp
  refine ⟨hmain, ?_⟩
  intro out hout
  rw [hmain] at hout
  have hout2 : out = pairs := by
    injection hout with h
    exact h.symm
  rw [hout2, hpairs]
  constructor
  · simp
  · simp

/-- Concrete instance of C5: a two-frame decoded animation with delays 100
(defaulted from the falsy raw delay 0) and 20 passes through with two
output frames and the same delay sequence. -/
theorem animatedPipeline_frames_witness :
    generate fitsAll encW (some "qr") testOpts =
      .ok (calculateTypeNumber fitsAll,
        renderToCanvas (encW (calculateTypeNumber fitsAll)) testOpts) ∧
    ∀ out, animatedAttempt envW fitsAll encW (some "qr") testOpts = .ok out →
      out.length = (rawsW.map decodeFrame).length ∧
      out.map Prod.snd = (rawsW.map decodeFrame).map Frame.delay := by
  have hgen : generate fitsAll encW (some "qr") testOpts =
      .ok (calculateTypeNumber fitsAll,
        renderToCanvas (encW (calculateTypeNumber fitsAll)) testOpts) := by
    unfold generate
    simp [fitsAll]
  exact ⟨hgen,
    (animatedPipeline_frames envW fitsAll encW (some "qr") testOpts rawsW
      (calculateTypeNumber fitsAll)
      (renderToCanvas (encW (calculateTypeNumber fitsAll)) testOpts)
      rfl rfl rfl (by simp [rawsW]) hgen (fun _ => rfl) rfl).2⟩

/-- When the base generation succeeds, the static path always produces a
displayed static canvas (a logo failure is absorbed by showing the bare QR
canvas). -/
theorem generateStaticQR_ok (fits : Nat → Bool) (enc : Nat → QR)
    (text : Option String) (o : RenderOpts) (logo : Option (Nat × ImageDims))
    (logoLoadOk : Bool) (tn : Nat) (qc : Surface)
    (hgen : generate fits enc text o = .ok (tn, qc)) :
    ∃ c, generateStaticQR fits enc text o logo logoLoadOk = .ok (.static c) := by
  unfold generateStaticQR
  rw [hgen]
  cases logo with
  | none => exact ⟨qc, rfl⟩
  | some l =>
    cases hok : logoLoadOk
    · exact ⟨qc, by simp⟩
    · exact ⟨(addLogoOverlay qc l.1 l.2 (appOverlayOpts o.style)).2, by simp⟩

/-- C6: for every failure inside the animated path, the orchestrator does
not propagate the error but falls back to generating and displaying a
single static QR code, so a generate invocation whose base generation
succeeds (valid text within capacity) never ends in an error state because
of the animation. -/
theorem generateAnimatedQR_fallback (env : AnimEnv) (fits : Nat → Bool)
    (enc : Nat → QR) (text : Option String) (o : RenderOpts)
    (logo : Option (Nat × ImageDims)) (logoLoadOk : Bool) (tn : Nat)
    (qc : Surface) (hgen : generate fits enc text o = .ok (tn, qc)) :
    (∃ d, generateAnimatedQR env fits enc text o logo logoLoadOk = .ok d) ∧
    (∀ e, animatedAttempt env fits enc text o = .error e →
      ∃ c, generateAnimatedQR env fits enc text o logo logoLoadOk =
        .ok (.static c)) := by
  constructor
  · cases hatt : animatedAttempt env fits enc text o with
    | ok result =>
      exact ⟨.animated result, by simp [generateAnimatedQR, hatt]⟩
    | error e =>
      obtain ⟨c, hc⟩ :=
        generateStaticQR_ok fits enc text o logo logoLoadOk tn qc hgen
      exact ⟨.static c, by simp [generateAnimatedQR, hatt, hc]⟩
  · intro e hatt
    obtain ⟨c, hc⟩ :=
      generateStaticQR_ok fits enc text o logo logoLoadOk tn qc hgen
    exact ⟨c, by simp [generateAnimatedQR, hatt, hc]⟩

/-- Concrete instance of C6: with both GIF libraries missing, generation
with valid text still displays an output (the static fallback). -/
theorem generateAnimatedQR_fallback_witness :
    generate fitsAll encW (some "qr") testOpts =
      .ok (calculateTypeNumber fitsAll,
        renderToCanvas (encW (calculateTypeNumber fitsAll)) testOpts) ∧
    ∃ d, generateAnimatedQR ⟨false, false, .ok [], fun _ => true, true⟩
      fitsAll encW (some "qr") testOpts none true = .ok d := by
  have hgen : generate fitsAll encW (some "qr") testOpts =
      .ok (calculateTypeNumber fitsAll,
        renderToCanvas (encW (calculateTypeNumber fitsAll)) testOpts) := by
    unfold generate
    simp [fitsAll]
  exact ⟨hgen,
    (generateAnimatedQR_fallback ⟨false, false, .ok [], fun _ => true, true⟩
      fitsAll encW (some "qr") testOpts none true
      (calculateTypeNumber fitsAll)
      (renderToCanvas (encW (calculateTypeNumber fitsAll)) testOpts) hgen).1⟩

end Gif

end QRGen
